import Mathlib

set_option maxRecDepth 10000

attribute [local semireducible] Rat.add Rat.mul Rat.sub Rat.inv Rat.ofScientific

/-!
Verification development for the bettracker repository (app.py,
csv_importer.py, email_parser.py).  The Python source is shallowly
embedded: strings are `String`/`List Char` (ASCII fragment of Python's
text semantics), Python floats are `PyFloat` (exact rationals plus the
special values that `float(...)` can produce), dicts produced by
`csv.DictReader` are association lists, and `None` results are `Option`.
All definitions are executable.
-/

/-- ASCII decimal digit test (`\d` / `str.isdigit` on ASCII, and the
digit ranges used by the source's regexes). -/
def isDigit (c : Char) : Bool := 48 ≤ c.toNat && c.toNat ≤ 57

/-- Numeric value of an ASCII digit. -/
def digitVal (c : Char) : Nat := c.toNat - 48

/-- Python's whitespace class `\s` restricted to ASCII:
space, tab, newline, carriage return, vertical tab, form feed. -/
def isPySpace (c : Char) : Bool :=
  c.toNat == 32 || c.toNat == 9 || c.toNat == 10 || c.toNat == 13 ||
  c.toNat == 11 || c.toNat == 12

/-- `str.lower` on a single character, ASCII fragment. -/
def pyLowerChar (c : Char) : Char :=
  if 65 ≤ c.toNat && c.toNat ≤ 90 then Char.ofNat (c.toNat + 32) else c

/-- `str.lower`, ASCII fragment. -/
def pyLower (s : String) : String := String.mk (s.data.map pyLowerChar)

/-- Drop trailing Python whitespace (the right half of `str.strip`). -/
def dropTrailingWs : List Char → List Char
  | [] => []
  | c :: t =>
    let r := dropTrailingWs t
    if r.isEmpty && isPySpace c then [] else c :: r

/-- `str.strip()` on char lists: remove leading and trailing whitespace. -/
def pyStripL (l : List Char) : List Char := dropTrailingWs (l.dropWhile isPySpace)

/-- `str.strip()`. -/
def pyStrip (s : String) : String := String.mk (pyStripL s.data)

/-- Substring containment (Python's `needle in hay`). -/
def listContains (hay needle : List Char) : Bool :=
  match hay with
  | [] => needle.isEmpty
  | _ :: t => needle.isPrefixOf hay || listContains t needle

/-- String-level substring containment. -/
def strContainsB (hay needle : String) : Bool := listContains hay.data needle.data

/-- The values a Python `float` can take: a finite value (exact rational
in this embedding), NaN, and the two infinities. -/
inductive PyFloat where
  | finite (q : ℚ)
  | nan
  | inf
  | ninf
deriving DecidableEq

/-- Python truthiness of a float (`bool(x)`): only `0.0` is falsy;
`nan` and the infinities are truthy. -/
def pyTruthyF : PyFloat → Bool
  | PyFloat.finite q => !(q == 0)
  | PyFloat.nan => true
  | PyFloat.inf => true
  | PyFloat.ninf => true

/-- Python truthiness of an optional float (`None` is falsy). -/
def pyTruthy : Option PyFloat → Bool
  | none => false
  | some f => pyTruthyF f

/-- Parse a run of decimal digits with PEP 515 underscore grouping
(an underscore must sit between two digits), as accepted inside a
Python `float(...)` literal.  Returns (value, number of digits, rest). -/
def parseUDigitsGo (acc n : Nat) : List Char → Nat × Nat × List Char
  | [] => (acc, n, [])
  | c :: t =>
    if isDigit c then parseUDigitsGo (acc * 10 + digitVal c) (n + 1) t
    else if c == '_' then
      match t with
      | d :: t2 =>
        if isDigit d then parseUDigitsGo (acc * 10 + digitVal d) (n + 1) t2
        else (acc, n, c :: t)
      | [] => (acc, n, [c])
    else (acc, n, c :: t)

/-- Parse a nonempty digit run (with underscore grouping); `none` when the
input does not start with a digit. -/
def parseUDigits (l : List Char) : Option (Nat × Nat × List Char) :=
  match l with
  | c :: t => if isDigit c then some (parseUDigitsGo (digitVal c) 1 t) else none
  | [] => none

/-- Trailing part of a `float(...)` literal: optional exponent, then the
end of the string.  `mant` is the signed-less mantissa, `sgn` the sign. -/
def afterExpOrEnd (sgn : ℤ) (mant : ℚ) (r : List Char) : Option PyFloat :=
  match r with
  | [] => some (PyFloat.finite ((sgn : ℚ) * mant))
  | c :: r1 =>
    if c == 'e' || c == 'E' then
      let p : ℤ × List Char :=
        match r1 with
        | '+' :: rr => (1, rr)
        | '-' :: rr => (-1, rr)
        | rr => (1, rr)
      match parseUDigits p.2 with
      | some (ev, _, r3) =>
        if r3.isEmpty then
          some (PyFloat.finite ((sgn : ℚ) * mant * (10 : ℚ) ^ (p.1 * (ev : ℤ))))
        else none
      | none => none
    else none

/-- Part of a `float(...)` literal after the integer digits: optional
fraction, optional exponent. -/
def afterInt (sgn : ℤ) (iv : Nat) (r1 : List Char) : Option PyFloat :=
  match r1 with
  | '.' :: r2 =>
    match parseUDigits r2 with
    | some (fv, fn, r3) =>
      afterExpOrEnd sgn ((iv : ℚ) + (fv : ℚ) / (10 : ℚ) ^ fn) r3
    | none => afterExpOrEnd sgn (iv : ℚ) r2
  | _ => afterExpOrEnd sgn (iv : ℚ) r1

/-- Decimal part of a `float(...)` literal: digits, or a leading dot
followed by digits. -/
def parseDecimalPart (sgn : ℤ) (r : List Char) : Option PyFloat :=
  match parseUDigits r with
  | some (iv, _, r1) => afterInt sgn iv r1
  | none =>
    match r with
    | '.' :: r1 =>
      match parseUDigits r1 with
      | some (fv, fn, r2) =>
        afterExpOrEnd sgn ((fv : ℚ) / (10 : ℚ) ^ fn) r2
      | none => none
    | _ => none

/-- Python's `float(s)` on the ASCII fragment: optional surrounding
whitespace, optional sign, then `nan` / `inf` / `infinity`
(case-insensitive) or a decimal literal with optional fraction and
exponent.  `none` models the `ValueError` path. -/
def parsePyFloat (s : String) : Option PyFloat :=
  let l := pyStripL s.data
  match l with
  | [] => none
  | _ =>
    let p : ℤ × List Char :=
      match l with
      | '+' :: r => (1, r)
      | '-' :: r => (-1, r)
      | r => (1, r)
    let rl := p.2.map pyLowerChar
    if rl = "nan".data then some PyFloat.nan
    else if rl = "inf".data ∨ rl = "infinity".data then
      some (if p.1 = 1 then PyFloat.inf else PyFloat.ninf)
    else parseDecimalPart p.1 p.2

/-- The character strip performed by `_clean_numeric`'s
`re.sub(r'[$,\s]', '', str(value))`. -/
def stripMoneyChars (s : String) : String :=
  String.mk (s.data.filter (fun c => !(c == '$' || c == ',' || isPySpace c)))

/-- `BetCSVImporter._clean_numeric`: `None` for null/empty/"nan" input,
otherwise strip `$`, `,` and whitespace and run `float(...)`, with the
`ValueError` path mapped to `None`. -/
def clean_numeric (value : Option String) : Option PyFloat :=
  match value with
  | none => none
  | some s =>
    if s = "" ∨ pyLower s = "nan" then none
    else parsePyFloat (stripMoneyChars s)

/-- `BetCSVImporter._clean_text`: empty string for null/"nan" input,
otherwise the trimmed string. -/
def clean_text (value : Option String) : String :=
  match value with
  | none => ""
  | some s => if pyLower s = "nan" then "" else pyStrip s

/-! ## CSV importer (`csv_importer.py`, `BetCSVImporter`)

`csv.DictReader` is embedded as a header (list of field names) plus data
rows (lists of cells); each row becomes an association list from field
name to optional cell, `none` standing for Python `None` (the `restval`
used when a row is shorter than the header).  File I/O and delimiter
sniffing live outside the embedding: `import_from_csv` hands the sniffed
reader to `_process_csv_reader`, which is modelled here. -/

/-- `self.required_columns`. -/
def required_columns : List String :=
  ["date", "bet_type", "sport", "game_description", "bet_description",
   "odds", "stake", "potential_payout"]

/-- `self.optional_columns`. -/
def optional_columns : List String := ["status", "actual_payout"]

/-- A `csv.DictReader` row: field name to optional cell value. -/
abbrev Row : Type := List (String × Option String)

/-- Build the dict `DictReader` yields: every field name is a key; cells
beyond the row's length get `None` (`restval`).  On duplicate field names
the later entry wins, as in `dict(zip(fieldnames, row))`. -/
def mkRow (fieldnames : List String) (cells : List String) : Row :=
  fieldnames.enum.map (fun p => (p.2, cells.get? p.1))

/-- `row[key]` / `row.get(key)`: value of the last binding of `key`
(`none` both for a missing key and for a `None` value; `_process_row` is
only called with rows holding every required key, so the missing-key
`KeyError` path is unreachable). -/
def rowVal (row : Row) (key : String) : Option String :=
  match List.lookup key row.reverse with
  | some v => v
  | none => none

/-- `row.get(key, default)`. -/
def rowGetD (row : Row) (key : String) (dflt : Option String) : Option String :=
  match List.lookup key row.reverse with
  | some v => v
  | none => dflt

/-- `str(x)` for the optional cell (Python prints `None`). -/
def pyStrOpt : Option String → String
  | none => "None"
  | some s => s

/-- Leap year test used by the Gregorian calendar. -/
def isLeap (y : Nat) : Bool := (y % 4 == 0 && y % 100 != 0) || y % 400 == 0

/-- Days in a month, for `datetime`'s range validation. -/
def daysInMonth (y m : Nat) : Nat :=
  if m == 2 then (if isLeap y then 29 else 28)
  else if m == 4 || m == 6 || m == 9 || m == 11 then 30
  else 31

/-- A calendar date as (year, month, day). -/
abbrev DateT : Type := Nat × Nat × Nat

/-- Calendar validation performed by the `datetime` constructor:
1 ≤ year ≤ 9999, 1 ≤ month ≤ 12, 1 ≤ day ≤ days in that month. -/
def validDate (y m d : Nat) : Bool :=
  1 ≤ y && y ≤ 9999 && 1 ≤ m && m ≤ 12 && 1 ≤ d && d ≤ daysInMonth y m

/-- A one-or-two digit field (`%m`/`%d`) followed by the rest of the
pattern; returns the parsed value and remainder.  Mirrors the
backtracking of `strptime`'s regex: two digits if the continuation
matches, else one. -/
def takeNum12 (l : List Char) (contOk : List Char → Bool) : Option (Nat × List Char) :=
  match l with
  | a :: b :: r =>
    if isDigit a && isDigit b && contOk r then
      some (digitVal a * 10 + digitVal b, r)
    else if isDigit a && contOk (b :: r) then
      some (digitVal a, b :: r)
    else none
  | [a] => if isDigit a && contOk [] then some (digitVal a, []) else none
  | [] => none

/-- Exactly four digits (`%Y`). -/
def takeNum4 (l : List Char) : Option (Nat × List Char) :=
  match l with
  | a :: b :: c :: d :: r =>
    if isDigit a && isDigit b && isDigit c && isDigit d then
      some (((digitVal a * 10 + digitVal b) * 10 + digitVal c) * 10 + digitVal d, r)
    else none
  | _ => none

/-- `datetime.strptime(s, '%Y-%m-%d')`: the whole string must match and
the date must be calendar-valid. -/
def parseISO (s : String) : Option DateT :=
  match takeNum4 s.data with
  | some (y, r1) =>
    match r1 with
    | '-' :: r2 =>
      match takeNum12 r2 (fun r => match r with | '-' :: _ => true | _ => false) with
      | some (m, r3) =>
        match r3 with
        | '-' :: r4 =>
          match takeNum12 r4 (fun r => r.isEmpty) with
          | some (d, r5) =>
            if r5.isEmpty && validDate y m d then some (y, m, d) else none
          | none => none
        | _ => none
      | none => none
    | _ => none
  | none => none

/-- `datetime.strptime(s, '%m/%d/%Y')`. -/
def parseMDY (s : String) : Option DateT :=
  match takeNum12 s.data (fun r => match r with | '/' :: _ => true | _ => false) with
  | some (m, r1) =>
    match r1 with
    | '/' :: r2 =>
      match takeNum12 r2 (fun r => match r with | '/' :: _ => true | _ => false) with
      | some (d, r3) =>
        match r3 with
        | '/' :: r4 =>
          match takeNum4 r4 with
          | some (y, r5) =>
            if r5.isEmpty && validDate y m d then some (y, m, d) else none
          | none => none
        | _ => none
      | none => none
    | _ => none
  | none => none

/-- Zero-pad a number to a given width, as `strftime` does. -/
def padNum (width n : Nat) : String :=
  let s := toString n
  String.mk (List.replicate (width - s.length) '0') ++ s

/-- `strftime('%Y-%m-%d')`. -/
def formatISO (d : DateT) : String :=
  padNum 4 d.1 ++ "-" ++ padNum 2 d.2.1 ++ "-" ++ padNum 2 d.2.2

/-- The date-parsing cascade of `_process_row`: ISO first, then
`MM/DD/YYYY`, else `datetime.now()` (passed in as `today`). -/
def parseDateFallback (s today : String) : String :=
  match parseISO s with
  | some d => formatISO d
  | none =>
    match parseMDY s with
    | some d => formatISO d
    | none => today

/-- The bet record dict built by `_process_row`. -/
structure BetData where
  date : String
  bet_type : String
  sport : String
  game_description : String
  bet_description : String
  odds : String
  stake : PyFloat
  potential_payout : PyFloat
  status : String
  actual_payout : PyFloat
deriving DecidableEq

/-- `BetCSVImporter._process_row`.  `today` stands for
`datetime.now().strftime('%Y-%m-%d')`.  The row's required keys are
present at every call site (header check), so no exception is raised and
the `except` branch is dead; `row.get('actual_payout', 0)` has the
integer default `0`, whose `str` is `"0"`. -/
def process_row (row : Row) (today : String) : Option BetData :=
  let parsed_date := parseDateFallback (pyStrOpt (rowVal row "date")) today
  let stake := clean_numeric (rowVal row "stake")
  let potential_payout := clean_numeric (rowVal row "potential_payout")
  match stake, potential_payout with
  | some sv, some pv =>
    if pyTruthyF sv && pyTruthyF pv then
      some
        { date := parsed_date
          bet_type := clean_text (rowVal row "bet_type")
          sport := clean_text (rowVal row "sport")
          game_description := clean_text (rowVal row "game_description")
          bet_description := clean_text (rowVal row "bet_description")
          odds := clean_text (rowVal row "odds")
          stake := sv
          potential_payout := pv
          status := clean_text (rowGetD row "status" (some "pending"))
          actual_payout :=
            match clean_numeric (rowGetD row "actual_payout" (some "0")) with
            | some f => if pyTruthyF f then f else PyFloat.finite 0
            | none => PyFloat.finite 0 }
    else none
  | _, _ => none

/-- The result dict of `_process_csv_reader` / `import_from_csv`.
`skipped = none` models a dict with no `skipped` key (the failure
dictionaries in the source omit it). -/
structure ImportResult where
  success : Bool
  error : Option String
  bets : List BetData
  skipped : Option (List String)
deriving DecidableEq

/-- `', '.join(columns)`. -/
def joinComma : List String → String
  | [] => ""
  | [x] => x
  | x :: xs => x ++ ", " ++ joinComma xs

/-- The missing-columns list
`[col for col in self.required_columns if col not in fieldnames]`. -/
def missingCols (fieldnames : List String) : List String :=
  required_columns.filter (fun c => !(fieldnames.contains c))

/-- The enumerated row loop of `_process_csv_reader`
(`enumerate(reader, start=1)`): accumulates bet records and skip
messages.  `process_row` never raises here, so every skip reason is the
literal `Invalid data`. -/
def processRowsLoop (fieldnames : List String) (today : String) :
    Nat → List (List String) → List BetData × List String
  | _, [] => ([], [])
  | idx, r :: rest =>
    let p := processRowsLoop fieldnames today (idx + 1) rest
    match process_row (mkRow fieldnames r) today with
    | some bd => (bd :: p.1, p.2)
    | none => (p.1, ("Row " ++ toString idx ++ ": Invalid data") :: p.2)

/-- `BetCSVImporter._process_csv_reader` on the sniffed reader's header
and data rows. -/
def process_csv_reader (fieldnames : List String) (rows : List (List String))
    (today : String) : ImportResult :=
  let missing := missingCols fieldnames
  if missing.isEmpty then
    let p := processRowsLoop fieldnames today 1 rows
    { success := true, error := none, bets := p.1, skipped := some p.2 }
  else
    { success := false
      error := some ("Missing required columns: " ++ joinComma missing)
      bets := []
      skipped := none }

/-- Header written by `generate_template_csv`
(`self.required_columns + self.optional_columns`). -/
def templateFieldnames : List String := required_columns ++ optional_columns

/-- The two example rows written by `generate_template_csv`, cell order
following `templateFieldnames`.  None of the values contains a comma or
a quote, so the CSV writer emits them verbatim and the sniffer detects
the comma delimiter on re-import. -/
def templateRows : List (List String) :=
  [["2024-01-15", "spread", "NFL", "Chiefs vs Bills", "Chiefs -3.5",
    "-110", "25.00", "47.73", "won", "47.73"],
   ["2024-01-16", "moneyline", "NBA", "Lakers vs Warriors", "Lakers ML",
    "+150", "50.00", "125.00", "pending", "0.00"]]

/-! ## Statistics aggregator (`app.py`, `calculate_stats`)

`calculate_stats` reads only `status`, `stake` and `actual_payout` from
each bet, so the embedded record carries exactly those fields; monetary
floats are exact rationals here. -/

/-- A stored bet as consumed by `calculate_stats`. -/
structure Bet where
  status : String
  stake : ℚ
  actual_payout : ℚ
deriving DecidableEq

/-- The dict returned by `calculate_stats`. -/
structure StatsSummary where
  total_bets : Nat
  wins : Nat
  losses : Nat
  pushes : Nat
  pending : Nat
  win_rate : ℚ
  total_staked : ℚ
  total_payout : ℚ
  profit_loss : ℚ
  roi : ℚ
deriving DecidableEq

/-- Floor of a rational, computed on the normalized fraction. -/
def ratFloor (q : ℚ) : ℤ := Int.fdiv q.num q.den

/-- Python's `round(x, 2)`: scale by 100 and round half to even
(banker's rounding), modelled exactly on rationals. -/
def pyRound2 (q : ℚ) : ℚ :=
  let scaled := q * 100
  let f : ℤ := ratFloor scaled
  let frac := scaled - (f : ℚ)
  let r : ℤ :=
    if frac < 1 / 2 then f
    else if 1 / 2 < frac then f + 1
    else if f % 2 = 0 then f else f + 1
  (r : ℚ) / 100

/-- `calculate_stats` from `app.py`. -/
def calculate_stats (bets : List Bet) : StatsSummary :=
  if bets.isEmpty then
    { total_bets := 0, wins := 0, losses := 0, pushes := 0, pending := 0,
      win_rate := 0, total_staked := 0, total_payout := 0,
      profit_loss := 0, roi := 0 }
  else
    let wins := (bets.filter (fun b => b.status == "won")).length
    let losses := (bets.filter (fun b => b.status == "lost")).length
    let pushes := (bets.filter (fun b => b.status == "pushed")).length
    let pending := (bets.filter (fun b => b.status == "pending")).length
    let win_rate : ℚ :=
      if 0 < wins + losses then ((wins : ℚ) / ((wins : ℚ) + (losses : ℚ))) * 100 else 0
    let total_staked : ℚ := (bets.map Bet.stake).sum
    let total_payout : ℚ := (bets.map Bet.actual_payout).sum
    let profit_loss : ℚ := total_payout - total_staked
    let roi : ℚ := if 0 < total_staked then (profit_loss / total_staked) * 100 else 0
    { total_bets := bets.length, wins := wins, losses := losses,
      pushes := pushes, pending := pending,
      win_rate := pyRound2 win_rate, total_staked := pyRound2 total_staked,
      total_payout := pyRound2 total_payout, profit_loss := pyRound2 profit_loss,
      roi := pyRound2 roi }

/-! ## Email parser (`email_parser.py`, `BetEmailParser`)

The three sportsbooks in `self.sportsbook_patterns` share one identical
`bet_patterns` table, so the field extractors below are defined once.
Each extractor embeds `re.search` of the concrete pattern (all searches
use `re.IGNORECASE`): leftmost match, greedy quantifiers with
backtracking, `_extract_pattern` returning the first non-empty capture
group stripped, or the empty string when nothing matches. -/

/-- Case-insensitive literal prefix match: the keyword is given
lower-case; on success returns the remainder of the text. -/
def matchCI (kw l : List Char) : Option (List Char) :=
  if (l.take kw.length).map pyLowerChar = kw then some (l.drop kw.length) else none

/-- Head-is-digit test. -/
def headDigit : List Char → Bool
  | d :: _ => isDigit d
  | [] => false

/-- The capture of `(\d+\.?\d*)` at a position whose head is a digit:
greedy digits, an optional dot, then greedy digits. -/
def buildMoney (r : List Char) : List Char :=
  let ds := r.takeWhile isDigit
  let rest := r.dropWhile isDigit
  match rest with
  | c :: r3 => if c == '.' then ds ++ '.' :: r3.takeWhile isDigit else ds
  | [] => ds

/-- `re.search(r'([+-]\d+)', text)`: leftmost sign-then-digits run,
returning the capture. -/
def findOdds : List Char → Option (List Char)
  | [] => none
  | c :: t =>
    if (c == '+' || c == '-') && headDigit t then some (c :: t.takeWhile isDigit)
    else findOdds t

/-- `re.search(r'\$(\d+\.?\d*)', text)`: leftmost `$` followed by a
digit, returning the money capture. -/
def findStake : List Char → Option (List Char)
  | [] => none
  | c :: t => if c == '$' && headDigit t then some (buildMoney t) else findStake t

/-- `\s*\$(\d+\.?\d*)` immediately after a matched keyword. -/
def moneyGroupAt (l : List Char) : Option (List Char) :=
  match l.dropWhile isPySpace with
  | c :: r2 => if c == '$' && headDigit r2 then some (buildMoney r2) else none
  | [] => none

/-- `re.search(r'Win:\s*\$(\d+\.?\d*)|Payout:\s*\$(\d+\.?\d*)', text,
re.IGNORECASE)`: at each position try the `Win:` branch, then the
`Payout:` branch; `_extract_pattern` then yields the matched branch's
group (the other group is `None`). -/
def findPayout : List Char → Option (List Char)
  | [] => none
  | c :: t =>
    match (matchCI "win:".data (c :: t)).bind moneyGroupAt with
    | some g => some g
    | none =>
      match (matchCI "payout:".data (c :: t)).bind moneyGroupAt with
      | some g => some g
      | none => findPayout t

/-- The alternatives of `(Spread|Moneyline|Over|Under|Total|Parlay)`,
lower-cased, in the pattern's order. -/
def betTypeWords : List (List Char) :=
  ["spread".data, "moneyline".data, "over".data, "under".data,
   "total".data, "parlay".data]

/-- Try each alternation branch at one position (regex alternation
order); the capture is the original text slice. -/
def tryWordsAt (l : List Char) : List (List Char) → Option (List Char)
  | [] => none
  | w :: ws =>
    if (l.take w.length).map pyLowerChar = w then some (l.take w.length)
    else tryWordsAt l ws

/-- `re.search` of the bet-type alternation, case-insensitive. -/
def findBetType : List Char → Option (List Char)
  | [] => none
  | c :: t =>
    match tryWordsAt (c :: t) betTypeWords with
    | some g => some g
    | none => findBetType t

/-- `[A-Za-z\s]` (ASCII letters and whitespace), the character class of
the game-description pattern. -/
def alphaSpace (c : Char) : Bool :=
  (65 ≤ c.toNat && c.toNat ≤ 90) || (97 ≤ c.toNat && c.toNat ≤ 122) || isPySpace c

/-- Length matched by `\s*[A-Za-z\s]+` at the start of `r` (the two
greedy pieces together span the maximal `[A-Za-z\s]` run, which must be
nonempty). -/
def gameTailLen (r : List Char) : Option Nat :=
  let n := (r.takeWhile alphaSpace).length
  if n == 0 then none else some n

/-- `(?:vs\.?|@)\s*[A-Za-z\s]+` at the start of `l` (the inner
connector of the game pattern), trying `vs.`, `vs`, `@` in regex order;
returns the total length consumed. -/
def innerVs (l : List Char) : Option Nat :=
  match (matchCI "vs.".data l).bind gameTailLen with
  | some n => some (3 + n)
  | none =>
    match (matchCI "vs".data l).bind gameTailLen with
    | some n => some (2 + n)
    | none =>
      match (matchCI "@".data l).bind gameTailLen with
      | some n => some (1 + n)
      | none => none

/-- Greedy `[A-Za-z\s]+` before the inner connector: try the longest
feasible split first (`fuel` counts down from the maximal run length;
the split point must leave a matching connector).  Returns the full
group length from the start of `m`. -/
def pickPart1 (m : List Char) : Nat → Option Nat
  | 0 => none
  | k + 1 =>
    match innerVs (m.drop (k + 1)) with
    | some n => some (k + 1 + n)
    | none => pickPart1 m k

/-- One choice of the outer `\s*` width `w`: the capture group
`([A-Za-z\s]+(?:vs\.?|@)\s*[A-Za-z\s]+)` must match starting right
after those `w` whitespace characters. -/
def tryW (m : List Char) (w : Nat) : Option (Nat × Nat) :=
  let m2 := m.drop w
  match pickPart1 m2 (m2.takeWhile alphaSpace).length with
  | some g => some (w, g)
  | none => none

/-- Greedy outer `\s*` with backtracking: widest whitespace first. -/
def wLoop (m : List Char) : Nat → Option (Nat × Nat)
  | 0 => tryW m 0
  | w + 1 =>
    match tryW m (w + 1) with
    | some res => some res
    | none => wLoop m w

/-- After the outer `(?:vs\.?|@)` of the game pattern: `\s*` then the
capture group; returns the captured slice. -/
def afterVs (m : List Char) : Option (List Char) :=
  match wLoop m (m.takeWhile isPySpace).length with
  | some p => some ((m.drop p.1).take p.2)
  | none => none

/-- `re.search` of the whole game pattern
`(?:vs\.?|@)\s*([A-Za-z\s]+(?:vs\.?|@)\s*[A-Za-z\s]+)`,
case-insensitive, leftmost start position, alternatives in regex
order with backtracking into the shorter `vs` form. -/
def findGame : List Char → Option (List Char)
  | [] => none
  | c :: t =>
    match (matchCI "vs.".data (c :: t)).bind afterVs with
    | some g => some g
    | none =>
      match (matchCI "vs".data (c :: t)).bind afterVs with
      | some g => some g
      | none =>
        match (matchCI "@".data (c :: t)).bind afterVs with
        | some g => some g
        | none => findGame t

/-- `_extract_pattern`'s post-processing: the group stripped, or `""`
when the search failed. -/
def extractStr (r : Option (List Char)) : String :=
  match r with
  | some g => String.mk (pyStripL g)
  | none => ""

/-- Extraction of the `odds` field from the email body. -/
def extract_odds (content : String) : String := extractStr (findOdds content.data)

/-- Extraction of the `stake` field. -/
def extract_stake (content : String) : String := extractStr (findStake content.data)

/-- Extraction of the `potential_payout` field. -/
def extract_payout (content : String) : String := extractStr (findPayout content.data)

/-- Extraction of the `bet_type` field. -/
def extract_bet_type (content : String) : String := extractStr (findBetType content.data)

/-- Extraction of the `game_description` field. -/
def extract_game (content : String) : String := extractStr (findGame content.data)

/-- `_extract_sport`'s keyword table, in dict insertion order. -/
def sportsKeywords : List (String × List String) :=
  [("NFL", ["nfl", "football", "patriots", "chiefs", "cowboys"]),
   ("NBA", ["nba", "basketball", "lakers", "warriors", "celtics"]),
   ("MLB", ["mlb", "baseball", "yankees", "dodgers", "red sox"]),
   ("NHL", ["nhl", "hockey", "rangers", "bruins", "penguins"]),
   ("Soccer", ["soccer", "mls", "premier league", "champions league"]),
   ("Tennis", ["tennis", "atp", "wta", "wimbledon", "us open"]),
   ("Golf", ["golf", "pga", "masters", "open championship"])]

/-- `BetEmailParser._extract_sport`: first sport any of whose keywords
occurs in the lower-cased body; `"Other"` otherwise. -/
def extract_sport (content : String) : String :=
  let cl := (pyLower content).data
  match sportsKeywords.find? (fun p => p.2.any (fun k => listContains cl k.data)) with
  | some p => p.1
  | none => "Other"

/-- The `.*w` step of a pattern like `w1.*w2.*w3`: find `w` as a
literal prefix at some position reachable without crossing a newline
(`.` does not match `\n`); return the remainder after the first such
occurrence.  For a literal `w` the earliest occurrence is complete:
any later occurrence inside the same line leaves a smaller remainder
window. -/
def seekWordNoNl (w : List Char) : List Char → Option (List Char)
  | [] => if w.isEmpty then some [] else none
  | c :: t =>
    if w.isPrefixOf (c :: t) then some ((c :: t).drop w.length)
    else if c == '\n' then none
    else seekWordNoNl w t

/-- `re.search(r'w1.*w2.*w3', text)` for literal words `w1 w2 w3`: `w1`
may start at any position; the gaps match only non-newline characters. -/
def searchSeq3 (w1 w2 w3 : List Char) : List Char → Bool
  | [] => false
  | c :: t =>
    (w1.isPrefixOf (c :: t) &&
      (match seekWordNoNl w2 ((c :: t).drop w1.length) with
       | some r2 => (seekWordNoNl w3 r2).isSome
       | none => false)) ||
    searchSeq3 w1 w2 w3 t

/-- The lower-cased FanDuel subject pattern
`fanduel.*bet.*confirmation|your fanduel bet` searched in `text`. -/
def fanduelSubjectHit (text : List Char) : Bool :=
  searchSeq3 "fanduel".data "bet".data "confirmation".data text ||
  listContains text "your fanduel bet".data

/-- The lower-cased DraftKings subject pattern. -/
def draftkingsSubjectHit (text : List Char) : Bool :=
  searchSeq3 "draftkings".data "bet".data "confirmation".data text ||
  listContains text "your draftkings bet".data

/-- The lower-cased Caesars subject pattern. -/
def caesarsSubjectHit (text : List Char) : Bool :=
  searchSeq3 "caesars".data "bet".data "confirmation".data text ||
  listContains text "your caesars bet".data

/-- `BetEmailParser._identify_sportsbook`: subject patterns in dict
order over the lower-cased `subject + " " + content`, then the literal
substring fallbacks. -/
def identify_sportsbook (subject content : String) : Option String :=
  let text := (pyLower (subject ++ " " ++ content)).data
  if fanduelSubjectHit text then some "fanduel"
  else if draftkingsSubjectHit text then some "draftkings"
  else if caesarsSubjectHit text then some "caesars"
  else if listContains text "fanduel".data then some "fanduel"
  else if listContains text "draftkings".data then some "draftkings"
  else if listContains text "caesars".data then some "caesars"
  else none

/-- The dict built by `parse_email` before validation. -/
structure BetEmailData where
  sportsbook : String
  date : String
  sport : String
  bet_type : String
  game_description : String
  odds : String
  stake : String
  potential_payout : String
deriving DecidableEq

/-- `_clean_bet_data`'s odds cleanup `re.sub(r'[^\d+-]', '', odds)`,
applied only to a truthy (non-empty) field. -/
def cleanOdds (s : String) : String :=
  if s = "" then s
  else String.mk (s.data.filter (fun c => isDigit c || c == '+' || c == '-'))

/-- `_clean_bet_data`'s monetary cleanup `re.sub(r'[^\d.]', '', v)`. -/
def cleanMoney (s : String) : String :=
  if s = "" then s
  else String.mk (s.data.filter (fun c => isDigit c || c == '.'))

/-- Collapse every maximal whitespace run to a single space
(`re.sub(r'\s+', ' ', s)`), written with an "inside a run" flag so the
recursion is structural: the flag is true right after a whitespace
character, whose run has already emitted its single space. -/
def collapseWSGo (inRun : Bool) : List Char → List Char
  | [] => []
  | c :: t =>
    if isPySpace c then
      if inRun then collapseWSGo true t else ' ' :: collapseWSGo true t
    else c :: collapseWSGo false t

/-- `re.sub(r'\s+', ' ', s)` on char lists. -/
def collapseWS (l : List Char) : List Char := collapseWSGo false l

/-- `_clean_bet_data`'s game cleanup: collapse whitespace runs and
strip, applied only to a truthy field. -/
def cleanGame (s : String) : String :=
  if s = "" then s else String.mk (pyStripL (collapseWS s.data))

/-- `BetEmailParser._clean_bet_data`. -/
def clean_bet_data (bd : BetEmailData) : BetEmailData :=
  { bd with
    odds := cleanOdds bd.odds
    stake := cleanMoney bd.stake
    potential_payout := cleanMoney bd.potential_payout
    game_description := cleanGame bd.game_description }

/-- `BetEmailParser._validate_bet_data`: both `stake` and `odds` must be
truthy (`all(bet_data.get(f) for f in ['stake', 'odds'])`). -/
def validate_bet_data (bd : BetEmailData) : Bool :=
  !(bd.stake == "") && !(bd.odds == "")

/-- The raw dict assembled by `parse_email` before cleaning, for the
identified sportsbook (the three pattern sets are identical). -/
def rawBetEmailData (content today sb : String) : BetEmailData :=
  { sportsbook := sb
    date := today
    sport := extract_sport content
    bet_type := extract_bet_type content
    game_description := extract_game content
    odds := extract_odds content
    stake := extract_stake content
    potential_payout := extract_payout content }

/-- `BetEmailParser.parse_email`.  `today` stands for
`datetime.now().strftime('%Y-%m-%d')`. -/
def parse_email (content subject today : String) : Option BetEmailData :=
  match identify_sportsbook subject content with
  | none => none
  | some sb =>
    let bd := clean_bet_data (rawBetEmailData content today sb)
    if validate_bet_data bd then some bd else none

/-- The header of the C4 counterexample: every required column except
`odds`. -/
def fnsNoOdds : List String :=
  ["date", "bet_type", "sport", "game_description", "bet_description",
   "stake", "potential_payout"]

/-- No two adjacent spaces anywhere in the list. -/
def noDoubleSpace : List Char → Bool
  | [] => true
  | [_] => true
  | a :: b :: t => !(a == ' ' && b == ' ') && noDoubleSpace (b :: t)

/-- The shape left on a game description by collapse-and-strip: every
whitespace character is a plain space, no two spaces are adjacent, and
the string neither starts nor ends with a space. -/
def wsNormalized (l : List Char) : Bool :=
  l.all (fun c => !(isPySpace c) || c == ' ') && noDoubleSpace l &&
  (match l.head? with
   | some c => !(c == ' ')
   | none => true) &&
  (match l.getLast? with
   | some c => !(c == ' ')
   | none => true)

/-! ## Helper lemmas -/

/-- `bool(x)` is false exactly for `None` and `0.0`. -/
lemma pyTruthy_eq_false_iff (o : Option PyFloat) :
    pyTruthy o = false ↔ o = none ∨ o = some (PyFloat.finite 0) := by
  cases o with
  | none => simp [pyTruthy]
  | some f =>
    cases f with
    | finite q => simp [pyTruthy, pyTruthyF]
    | nan => simp [pyTruthy, pyTruthyF]
    | inf => simp [pyTruthy, pyTruthyF]
    | ninf => simp [pyTruthy, pyTruthyF]

/-- `_process_row` rejects a row exactly when the cleaned stake or the
cleaned potential payout is falsy. -/
lemma process_row_none_iff (row : Row) (today : String) :
    process_row row today = none ↔
      pyTruthy (clean_numeric (rowVal row "stake")) = false ∨
      pyTruthy (clean_numeric (rowVal row "potential_payout")) = false := by
  cases hs : clean_numeric (rowVal row "stake") with
  | none => simp [process_row, hs, pyTruthy]
  | some sv =>
    cases hp : clean_numeric (rowVal row "potential_payout") with
    | none => simp [process_row, hs, hp, pyTruthy]
    | some pv =>
      simp only [process_row, hs, hp, pyTruthy]
      by_cases h1 : pyTruthyF sv = true <;> by_cases h2 : pyTruthyF pv = true <;>
        simp [h1, h2]

/-- A record emitted by `_process_row` carries the truthy cleaned stake
and payout values. -/
lemma process_row_some_truthy (row : Row) (today : String) (b : BetData)
    (h : process_row row today = some b) :
    pyTruthyF b.stake = true ∧ pyTruthyF b.potential_payout = true := by
  cases hs : clean_numeric (rowVal row "stake") with
  | none => simp [process_row, hs] at h
  | some sv =>
    cases hp : clean_numeric (rowVal row "potential_payout") with
    | none => simp [process_row, hs, hp] at h
    | some pv =>
      simp only [process_row, hs, hp] at h
      by_cases hg : (pyTruthyF sv && pyTruthyF pv) = true
      · rw [if_pos hg] at h
        injection h with h
        subst h
        simpa using hg
      · rw [if_neg hg] at h
        cases h

/-- Closed form of the row loop of `_process_csv_reader`: the bets are
the row-wise successes in order, the skip list pairs each failing row
with its 1-based index. -/
lemma processRowsLoop_spec (fieldnames : List String) (today : String) :
    ∀ (rows : List (List String)) (idx : Nat),
      processRowsLoop fieldnames today idx rows =
        (rows.filterMap (fun r => process_row (mkRow fieldnames r) today),
         ((List.range' idx rows.length).zip rows).filterMap
           (fun p => if process_row (mkRow fieldnames p.2) today = none then
               some ("Row " ++ toString p.1 ++ ": Invalid data") else none)) := by
  intro rows
  induction rows with
  | nil => intro idx; rfl
  | cons r rest ih =>
    intro idx
    simp only [processRowsLoop, ih (idx + 1), List.length_cons, List.range'_succ,
      List.zip_cons_cons, List.filterMap_cons]
    cases h : process_row (mkRow fieldnames r) today <;> simp [h]

/-- On a header containing every required column,
`_process_csv_reader` succeeds with the loop's bets and skip list. -/
lemma process_csv_reader_ok (fieldnames : List String) (rows : List (List String))
    (today : String) (h : missingCols fieldnames = []) :
    process_csv_reader fieldnames rows today =
      { success := true, error := none,
        bets := rows.filterMap (fun r => process_row (mkRow fieldnames r) today),
        skipped := some (((List.range' 1 rows.length).zip rows).filterMap
          (fun p => if process_row (mkRow fieldnames p.2) today = none then
              some ("Row " ++ toString p.1 ++ ": Invalid data") else none)) } := by
  simp only [process_csv_reader, h, List.isEmpty_nil, if_true,
    processRowsLoop_spec]

/-- A list is a prefix of itself followed by anything. -/
lemma isPrefixOf_append_self (n rest : List Char) : n.isPrefixOf (n ++ rest) = true := by
  induction n with
  | nil => simp [List.isPrefixOf]
  | cons c t ih => simp [List.isPrefixOf, ih]

/-- Containment holds when the needle is a prefix of the haystack. -/
lemma listContains_of_isPrefixOf (hay n : List Char) (h : n.isPrefixOf hay = true) :
    listContains hay n = true := by
  cases hay with
  | nil =>
    cases n with
    | nil => rfl
    | cons a t => simp [List.isPrefixOf] at h
  | cons c t => simp [listContains, h]

/-- Containment is preserved by extending the haystack on the left. -/
lemma listContains_cons (c : Char) (t n : List Char) (h : listContains t n = true) :
    listContains (c :: t) n = true := by
  simp [listContains, h]

/-- Containment is preserved by prepending any list. -/
lemma listContains_append_left (a b n : List Char) (h : listContains b n = true) :
    listContains (a ++ b) n = true := by
  induction a with
  | nil => simpa using h
  | cons c t ih => simpa using listContains_cons c (t ++ b) n ih

/-- Every element of a list is contained in its comma join. -/
lemma joinComma_contains (l : List String) (x : String) (hx : x ∈ l) :
    listContains (joinComma l).data x.data = true := by
  induction l with
  | nil => cases hx
  | cons a t ih =>
    match t with
    | [] =>
      have hxa : x = a := by simpa using hx
      subst hxa
      exact listContains_of_isPrefixOf x.data x.data
        (by have h2 := isPrefixOf_append_self x.data []
            rwa [List.append_nil] at h2)
    | b :: t2 =>
      rcases List.mem_cons.mp hx with hxa | hx'
      · subst hxa
        show listContains (x ++ ", " ++ joinComma (b :: t2)).data x.data = true
        rw [String.data_append, String.data_append, List.append_assoc]
        exact listContains_of_isPrefixOf _ _ (isPrefixOf_append_self x.data _)
      · show listContains (a ++ ", " ++ joinComma (b :: t2)).data x.data = true
        rw [String.data_append, String.data_append, List.append_assoc]
        exact listContains_append_left _ _ _
          (listContains_append_left _ _ _ (ih hx'))

/-- C3.  For every CSV input whose header contains all required columns,
`_process_csv_reader` succeeds, processes rows independently and in file
order (the bets are exactly the per-row successes, the skip list holds
one entry `Row {1-based index}: Invalid data` per failing row), and a
row fails exactly when its cleaned stake or potential payout is `None`
or zero; a bad row never aborts the import. -/
theorem claim_C3_row_skips (fieldnames : List String) (rows : List (List String))
    (today : String) (h : missingCols fieldnames = []) :
    (process_csv_reader fieldnames rows today).success = true ∧
    (process_csv_reader fieldnames rows today).bets =
      rows.filterMap (fun r => process_row (mkRow fieldnames r) today) ∧
    (process_csv_reader fieldnames rows today).skipped =
      some (((List.range' 1 rows.length).zip rows).filterMap
        (fun p => if process_row (mkRow fieldnames p.2) today = none then
            some ("Row " ++ toString p.1 ++ ": Invalid data") else none)) ∧
    (∀ r : List String, process_row (mkRow fieldnames r) today = none ↔
      (clean_numeric (rowVal (mkRow fieldnames r) "stake") = none ∨
       clean_numeric (rowVal (mkRow fieldnames r) "stake") = some (PyFloat.finite 0) ∨
       clean_numeric (rowVal (mkRow fieldnames r) "potential_payout") = none ∨
       clean_numeric (rowVal (mkRow fieldnames r) "potential_payout") =
         some (PyFloat.finite 0))) := by
  rw [process_csv_reader_ok fieldnames rows today h]
  refine ⟨rfl, rfl, rfl, fun r => ?_⟩
  rw [process_row_none_iff, pyTruthy_eq_false_iff, pyTruthy_eq_false_iff]
  tauto

/-- Witness for C3 at the template header with a third, invalid row. -/
theorem claim_C3_row_skips_witness :
    missingCols templateFieldnames = [] ∧
    (process_csv_reader templateFieldnames
      (templateRows ++ [["2024-01-17", "prop", "NFL", "X vs Y", "X", "+100", "", "0"]])
      "2026-01-01").success = true :=
  ⟨by decide,
   (claim_C3_row_skips templateFieldnames
     (templateRows ++ [["2024-01-17", "prop", "NFL", "X vs Y", "X", "+100", "", "0"]])
     "2026-01-01" (by decide)).1⟩

/-- C4 counterexample: on a header missing `odds`, the failure dict is
`{'success': False, 'error': ..., 'bets': []}` with no `skipped` key at
all (modelled as `skipped = none`), so the result does not match the
contract `ImportResult = {success, error?, bets, skipped : string[]}`
in which `skipped` is a mandatory list. -/
theorem claim_C4_counterexample :
    (process_csv_reader fnsNoOdds [] "2026-01-01").success = false ∧
    (process_csv_reader fnsNoOdds [] "2026-01-01").error =
      some "Missing required columns: odds" ∧
    (process_csv_reader fnsNoOdds [] "2026-01-01").bets = [] ∧
    (process_csv_reader fnsNoOdds [] "2026-01-01").skipped = none := by
  decide

/-- C4 (amended).  On a header missing at least one required column,
`_process_csv_reader` fails fast with `success = false`, an error string
that contains the name of every missing column, and no bet records; the
failure dict carries no `skipped` field. -/
theorem claim_C4_missing_columns (fieldnames : List String) (rows : List (List String))
    (today : String) (h : missingCols fieldnames ≠ []) :
    process_csv_reader fieldnames rows today =
      { success := false,
        error := some ("Missing required columns: " ++ joinComma (missingCols fieldnames)),
        bets := [], skipped := none } ∧
    ∀ col ∈ missingCols fieldnames,
      strContainsB ("Missing required columns: " ++ joinComma (missingCols fieldnames))
        col = true := by
  have he : (missingCols fieldnames).isEmpty = false := by
    cases hm : missingCols fieldnames with
    | nil => exact absurd hm h
    | cons a t => rfl
  refine ⟨by simp [process_csv_reader, he], fun col hc => ?_⟩
  show listContains ("Missing required columns: " ++
    joinComma (missingCols fieldnames)).data col.data = true
  rw [String.data_append]
  exact listContains_append_left _ _ _ (joinComma_contains _ _ hc)

/-- Witness for C4 (amended) at a header missing exactly `odds`. -/
theorem claim_C4_missing_columns_witness :
    (process_csv_reader fnsNoOdds [] "2026-01-01").success = false ∧
    strContainsB ("Missing required columns: " ++ joinComma (missingCols fnsNoOdds))
      "odds" = true := by
  have h := claim_C4_missing_columns fnsNoOdds [] "2026-01-01" (by decide)
  exact ⟨by rw [h.1], h.2 "odds" (by decide)⟩

/-- C8.  `_process_row`'s date cascade tries ISO `YYYY-MM-DD` first,
then `MM/DD/YYYY`, and falls back to the current date when both fail;
whether a row is skipped depends only on the cleaned stake and
potential payout, never on the date. -/
theorem claim_C8_date_fallback :
    (∀ s today d, parseISO s = some d → parseDateFallback s today = formatISO d) ∧
    (∀ s today d, parseISO s = none → parseMDY s = some d →
      parseDateFallback s today = formatISO d) ∧
    (∀ s today, parseISO s = none → parseMDY s = none →
      parseDateFallback s today = today) ∧
    (∀ fieldnames cells today,
      required_columns.all (fun c => fieldnames.contains c) = true →
      ((process_row (mkRow fieldnames cells) today).isSome = true ↔
        pyTruthy (clean_numeric (rowVal (mkRow fieldnames cells) "stake")) = true ∧
        pyTruthy (clean_numeric (rowVal (mkRow fieldnames cells) "potential_payout")) =
          true)) := by
  refine ⟨?_, ?_, ?_, ?_⟩
  · intro s today d h
    simp [parseDateFallback, h]
  · intro s today d h1 h2
    simp [parseDateFallback, h1, h2]
  · intro s today h1 h2
    simp [parseDateFallback, h1, h2]
  · intro fieldnames cells today _
    rw [Option.isSome_iff_ne_none, Ne, process_row_none_iff]
    simp only [not_or, Bool.not_eq_false]

/-- Witness for C8: both formats parse, an unparseable date falls back,
and a row with an unparseable date is still imported. -/
theorem claim_C8_date_fallback_witness :
    parseDateFallback "2024-01-15" "FALLBACK" = formatISO (2024, 1, 15) ∧
    parseDateFallback "01/15/2024" "FALLBACK" = formatISO (2024, 1, 15) ∧
    parseDateFallback "garbage" "FALLBACK" = "FALLBACK" ∧
    (process_row (mkRow required_columns
      ["notadate", "spread", "NFL", "g", "b", "-110", "10", "20"])
      "2026-01-01").isSome = true :=
  ⟨claim_C8_date_fallback.1 "2024-01-15" "FALLBACK" (2024, 1, 15) (by decide),
   claim_C8_date_fallback.2.1 "01/15/2024" "FALLBACK" (2024, 1, 15) (by decide) (by decide),
   claim_C8_date_fallback.2.2.1 "garbage" "FALLBACK" (by decide) (by decide),
   (claim_C8_date_fallback.2.2.2 required_columns
     ["notadate", "spread", "NFL", "g", "b", "-110", "10", "20"] "2026-01-01"
     (by decide)).mpr ⟨by decide, by decide⟩⟩

/-- C9.  The template written by `generate_template_csv` (its header and
its two example rows), fed back through the importer, succeeds with
exactly 2 bet records and no skips. -/
theorem claim_C9_template_roundtrip :
    (process_csv_reader templateFieldnames templateRows "2026-01-01").success = true ∧
    (process_csv_reader templateFieldnames templateRows "2026-01-01").bets.length = 2 ∧
    (process_csv_reader templateFieldnames templateRows "2026-01-01").skipped = some [] := by
  decide

/-- A record passing `_validate_bet_data` has nonempty stake and odds. -/
lemma validate_true_fields (bd : BetEmailData) (hv : validate_bet_data bd = true) :
    bd.stake ≠ "" ∧ bd.odds ≠ "" := by
  simpa [validate_bet_data] using hv

/-- Decomposition of a successful `parse_email`: a sportsbook was
identified, the result is the cleaned raw dict, and validation held. -/
lemma parse_email_eq_some (content subject today : String) (r : BetEmailData)
    (h : parse_email content subject today = some r) :
    ∃ sb, identify_sportsbook subject content = some sb ∧
      r = clean_bet_data (rawBetEmailData content today sb) ∧
      validate_bet_data r = true := by
  cases hid : identify_sportsbook subject content with
  | none => simp [parse_email, hid] at h
  | some sb =>
    simp only [parse_email, hid] at h
    by_cases hv : validate_bet_data (clean_bet_data (rawBetEmailData content today sb)) = true
    · rw [if_pos hv] at h
      injection h with h
      subst h
      exact ⟨sb, rfl, rfl, hv⟩
    · rw [if_neg hv] at h
      cases h

/-- `parse_email` returns `None` exactly when no sportsbook is
recognized or the cleaned stake or odds field is empty. -/
lemma parse_email_none_iff (content subject today : String) :
    parse_email content subject today = none ↔
      identify_sportsbook subject content = none ∨
      cleanMoney (extract_stake content) = "" ∨
      cleanOdds (extract_odds content) = "" := by
  cases hid : identify_sportsbook subject content with
  | none => simp [parse_email, hid]
  | some sb =>
    simp only [parse_email, hid]
    by_cases hv : validate_bet_data (clean_bet_data (rawBetEmailData content today sb)) = true
    · have hf : cleanMoney (extract_stake content) ≠ "" ∧
          cleanOdds (extract_odds content) ≠ "" := by
        simpa [validate_bet_data, clean_bet_data, rawBetEmailData] using hv
      rw [if_pos hv]
      simp [hf.1, hf.2]
    · have hor : cleanMoney (extract_stake content) = "" ∨
          cleanOdds (extract_odds content) = "" := by
        by_contra hc
        push_neg at hc
        exact hv (by simp [validate_bet_data, clean_bet_data, rawBetEmailData,
          hc.1, hc.2])
      rw [if_neg hv]
      exact iff_of_true rfl (Or.inr hor)

/-- C2.  `parse_email` returns `None` exactly when no sportsbook is
recognized or the cleaned stake or odds field is empty; every `some`
result is a record with nonempty stake and odds, so no partial record
reaches the caller. -/
theorem claim_C2_parse_email_none :
    (∀ content subject today : String,
      parse_email content subject today = none ↔
        identify_sportsbook subject content = none ∨
        cleanMoney (extract_stake content) = "" ∨
        cleanOdds (extract_odds content) = "") ∧
    (∀ (content subject today : String) (r : BetEmailData),
      parse_email content subject today = some r →
      r.stake ≠ "" ∧ r.odds ≠ "") := by
  refine ⟨parse_email_none_iff, fun content subject today r h => ?_⟩
  rcases parse_email_eq_some content subject today r h with ⟨sb, _, _, hv⟩
  exact validate_true_fields r hv

/-- Witness for C2 on a concrete FanDuel-recognizable body. -/
theorem claim_C2_parse_email_none_witness :
    (⟨"fanduel", "2026-02-03", "Other", "", "", "-110", "25.00", ""⟩ : BetEmailData).stake
        ≠ "" ∧
    (⟨"fanduel", "2026-02-03", "Other", "", "", "-110", "25.00", ""⟩ : BetEmailData).odds
        ≠ "" :=
  claim_C2_parse_email_none.2 "FanDuel $25.00 -110" "" "2026-02-03"
    ⟨"fanduel", "2026-02-03", "Other", "", "", "-110", "25.00", ""⟩ (by decide)

/-- Every record in the importer's `bets` output comes from a successful
`_process_row`. -/
lemma mem_bets_process_row (fieldnames : List String) (rows : List (List String))
    (today : String) (b : BetData)
    (hb : b ∈ (process_csv_reader fieldnames rows today).bets) :
    ∃ r, process_row (mkRow fieldnames r) today = some b := by
  by_cases h : missingCols fieldnames = []
  · rw [process_csv_reader_ok fieldnames rows today h] at hb
    rcases List.mem_filterMap.mp hb with ⟨r, _, hr⟩
    exact ⟨r, hr⟩
  · have he : (missingCols fieldnames).isEmpty = false := by
      cases hm : missingCols fieldnames with
      | nil => exact absurd hm h
      | cons a t => rfl
    simp [process_csv_reader, he] at hb

/-- C6 counterexample: `_process_row` truthiness-checks only stake and
potential payout (`not stake` rejects just `None` and `0.0`, and odds is
never examined), so a CSV row with stake `-5`, potential payout `-47.73`
and an empty odds cell is emitted as a record with `stake = -5 < 0`,
`potential_payout = -47.73 < 0` and `odds = ""` — violating both
`stake > 0` / `potential_payout >= 0` and "a record missing odds is
never emitted". -/
theorem claim_C6_counterexample :
    (process_csv_reader required_columns
      [["2024-01-15", "spread", "NFL", "A vs B", "A -3", "", "-5", "-47.73"]]
      "2026-01-01").bets.map BetData.stake = [PyFloat.finite (-5)] ∧
    (process_csv_reader required_columns
      [["2024-01-15", "spread", "NFL", "A vs B", "A -3", "", "-5", "-47.73"]]
      "2026-01-01").bets.map BetData.potential_payout =
        [PyFloat.finite (-4773 / 100)] ∧
    (process_csv_reader required_columns
      [["2024-01-15", "spread", "NFL", "A vs B", "A -3", "", "-5", "-47.73"]]
      "2026-01-01").bets.map BetData.odds = [""] ∧
    ¬ (0 < (-5 : ℚ)) ∧ ¬ ((0 : ℚ) ≤ -4773 / 100) := by
  refine ⟨by decide, by decide, by decide, by norm_num, by norm_num⟩

/-- C6 (amended).  Every record emitted by the CSV importer has truthy
(nonzero, possibly negative) stake and potential payout, and every
non-`None` `parse_email` result has nonempty stake and odds, so on the
email path a record missing stake or odds is never emitted.  Neither
`stake > 0` nor `potential_payout >= 0` is enforced, and on the CSV path
the odds field is never checked at all: a row with an empty odds cell is
imported as a record with `odds = ""` (see the counterexample). -/
theorem claim_C6_amended :
    (∀ (fieldnames : List String) (rows : List (List String)) (today : String)
      (b : BetData), b ∈ (process_csv_reader fieldnames rows today).bets →
      b.stake ≠ PyFloat.finite 0 ∧ b.potential_payout ≠ PyFloat.finite 0) ∧
    (∀ (content subject today : String) (r : BetEmailData),
      parse_email content subject today = some r →
      r.stake ≠ "" ∧ r.odds ≠ "") := by
  constructor
  · intro fieldnames rows today b hb
    rcases mem_bets_process_row fieldnames rows today b hb with ⟨r, hr⟩
    have ht := process_row_some_truthy (mkRow fieldnames r) today b hr
    constructor
    · intro hz
      rw [hz] at ht
      simpa [pyTruthyF] using ht.1
    · intro hz
      rw [hz] at ht
      simpa [pyTruthyF] using ht.2
  · intro content subject today r h
    rcases parse_email_eq_some content subject today r h with ⟨sb, _, _, hv⟩
    exact validate_true_fields r hv

/-- Witness for C6 (amended) at the first template record and a
concrete parsed email. -/
theorem claim_C6_amended_witness :
    ((⟨"2024-01-15", "spread", "NFL", "Chiefs vs Bills", "Chiefs -3.5", "-110",
        PyFloat.finite 25, PyFloat.finite (4773 / 100), "won",
        PyFloat.finite (4773 / 100)⟩ : BetData).stake ≠ PyFloat.finite 0 ∧
      (⟨"2024-01-15", "spread", "NFL", "Chiefs vs Bills", "Chiefs -3.5", "-110",
        PyFloat.finite 25, PyFloat.finite (4773 / 100), "won",
        PyFloat.finite (4773 / 100)⟩ : BetData).potential_payout ≠ PyFloat.finite 0) ∧
    ((⟨"fanduel", "2026-02-03", "Other", "", "", "-110", "25.00", ""⟩ :
        BetEmailData).stake ≠ "" ∧
      (⟨"fanduel", "2026-02-03", "Other", "", "", "-110", "25.00", ""⟩ :
        BetEmailData).odds ≠ "") :=
  ⟨claim_C6_amended.1 templateFieldnames templateRows "2026-01-01"
      ⟨"2024-01-15", "spread", "NFL", "Chiefs vs Bills", "Chiefs -3.5", "-110",
        PyFloat.finite 25, PyFloat.finite (4773 / 100), "won",
        PyFloat.finite (4773 / 100)⟩ (by decide),
   claim_C6_amended.2 "FanDuel $25.00 -110" "" "2026-02-03"
      ⟨"fanduel", "2026-02-03", "Other", "", "", "-110", "25.00", ""⟩ (by decide)⟩

/-- C5.  `_clean_numeric` returns `None` on null, empty and
(case-insensitively) `nan` input, otherwise strips `$`, `,` and
whitespace and parses the rest as a float, returning `None` instead of
throwing on a parse failure; every decorated numeric string therefore
yields its numeric value. -/
theorem claim_C5_clean_numeric :
    clean_numeric none = none ∧
    clean_numeric (some "") = none ∧
    (∀ s : String, pyLower s = "nan" → clean_numeric (some s) = none) ∧
    (∀ s : String, s ≠ "" → pyLower s ≠ "nan" →
      clean_numeric (some s) = parsePyFloat (stripMoneyChars s)) ∧
    (∀ (s : String) (q : ℚ), s ≠ "" → pyLower s ≠ "nan" →
      parsePyFloat (stripMoneyChars s) = some (PyFloat.finite q) →
      clean_numeric (some s) = some (PyFloat.finite q)) := by
  refine ⟨rfl, by decide, ?_, ?_, ?_⟩
  · intro s h
    simp [clean_numeric, h]
  · intro s h1 h2
    simp [clean_numeric, h1, h2]
  · intro s q h1 h2 h3
    simp [clean_numeric, h1, h2, h3]

/-- Witness for C5 on `"NaN"` and a decorated numeric string. -/
theorem claim_C5_clean_numeric_witness :
    clean_numeric (some "NaN") = none ∧
    clean_numeric (some " $1,234.50 ") = some (PyFloat.finite (2469 / 2)) :=
  ⟨claim_C5_clean_numeric.2.2.1 "NaN" (by decide),
   claim_C5_clean_numeric.2.2.2.2 " $1,234.50 " (2469 / 2) (by decide) (by decide)
     (by decide)⟩

/-- C1.  `calculate_stats` counts bets and statuses, computes win rate,
totals, profit/loss and ROI by the spec's formulas with division guards,
rounds each monetary/percentage output to 2 decimal places, reproduces
the three-record example, and maps the empty list to the all-zero
summary. -/
theorem claim_C1_calculate_stats :
    (∀ bets : List Bet,
      (calculate_stats bets).total_bets = bets.length ∧
      (calculate_stats bets).wins = (bets.filter (fun b => b.status == "won")).length ∧
      (calculate_stats bets).losses = (bets.filter (fun b => b.status == "lost")).length ∧
      (calculate_stats bets).pushes = (bets.filter (fun b => b.status == "pushed")).length ∧
      (calculate_stats bets).pending =
        (bets.filter (fun b => b.status == "pending")).length ∧
      (calculate_stats bets).win_rate = pyRound2
        (if 0 < (bets.filter (fun b => b.status == "won")).length +
              (bets.filter (fun b => b.status == "lost")).length then
          (((bets.filter (fun b => b.status == "won")).length : ℚ) /
            (((bets.filter (fun b => b.status == "won")).length : ℚ) +
              ((bets.filter (fun b => b.status == "lost")).length : ℚ))) * 100
        else 0) ∧
      (calculate_stats bets).total_staked = pyRound2 (bets.map Bet.stake).sum ∧
      (calculate_stats bets).total_payout = pyRound2 (bets.map Bet.actual_payout).sum ∧
      (calculate_stats bets).profit_loss =
        pyRound2 ((bets.map Bet.actual_payout).sum - (bets.map Bet.stake).sum) ∧
      (calculate_stats bets).roi = pyRound2
        (if 0 < (bets.map Bet.stake).sum then
          (((bets.map Bet.actual_payout).sum - (bets.map Bet.stake).sum) /
            (bets.map Bet.stake).sum) * 100
        else 0)) ∧
    calculate_stats [⟨"won", 10, 20⟩, ⟨"lost", 10, 0⟩, ⟨"pushed", 10, 10⟩] =
      ⟨3, 1, 1, 1, 0, 50, 30, 30, 0, 0⟩ ∧
    calculate_stats [] = ⟨0, 0, 0, 0, 0, 0, 0, 0, 0, 0⟩ := by
  refine ⟨fun bets => ?_, by decide, by decide⟩
  cases bets with
  | nil =>
    exact ⟨rfl, rfl, rfl, rfl, rfl, by decide, by decide, by decide, by decide, by decide⟩
  | cons a l =>
    exact ⟨rfl, rfl, rfl, rfl, rfl, rfl, rfl, rfl, rfl, rfl⟩

/-- The four status counters split the count of records whose status is
one of the four recognized strings. -/
lemma countP_status_split (bets : List Bet) :
    bets.countP (fun b => b.status == "won") +
      bets.countP (fun b => b.status == "lost") +
      bets.countP (fun b => b.status == "pushed") +
      bets.countP (fun b => b.status == "pending") =
    bets.countP (fun b => b.status == "won" || b.status == "lost" ||
      b.status == "pushed" || b.status == "pending") := by
  induction bets with
  | nil => rfl
  | cons a l ih =>
    simp only [List.countP_cons]
    by_cases h1 : a.status = "won" <;> by_cases h2 : a.status = "lost" <;>
      by_cases h3 : a.status = "pushed" <;> by_cases h4 : a.status = "pending" <;>
      simp_all <;> omega

/-- C10.  `calculate_stats` classifies a record into the four outcome
counters only by case-sensitive exact match of its status against the
lowercase strings; any other status still contributes to `total_bets`
and the monetary totals, and the counters sum to `total_bets` exactly
when every status is one of the four strings. -/
theorem claim_C10_status_exact_match :
    (∀ bets : List Bet,
      (calculate_stats bets).wins = bets.countP (fun b => b.status == "won") ∧
      (calculate_stats bets).losses = bets.countP (fun b => b.status == "lost") ∧
      (calculate_stats bets).pushes = bets.countP (fun b => b.status == "pushed") ∧
      (calculate_stats bets).pending = bets.countP (fun b => b.status == "pending") ∧
      ((calculate_stats bets).wins + (calculate_stats bets).losses +
          (calculate_stats bets).pushes + (calculate_stats bets).pending =
          (calculate_stats bets).total_bets ↔
        ∀ b ∈ bets, b.status ∈ (["won", "lost", "pushed", "pending"] : List String))) ∧
    calculate_stats [⟨"Won", 10, 20⟩] = ⟨1, 0, 0, 0, 0, 0, 10, 20, 10, 100⟩ := by
  refine ⟨fun bets => ?_, by decide⟩
  cases bets with
  | nil =>
    refine ⟨rfl, rfl, rfl, rfl, ?_⟩
    simp [calculate_stats]
  | cons a l =>
    refine ⟨(List.countP_eq_length_filter _ _).symm, (List.countP_eq_length_filter _ _).symm,
      (List.countP_eq_length_filter _ _).symm, (List.countP_eq_length_filter _ _).symm, ?_⟩
    show ((a :: l).filter (fun b => b.status == "won")).length +
        ((a :: l).filter (fun b => b.status == "lost")).length +
        ((a :: l).filter (fun b => b.status == "pushed")).length +
        ((a :: l).filter (fun b => b.status == "pending")).length = (a :: l).length ↔ _
    rw [← List.countP_eq_length_filter, ← List.countP_eq_length_filter,
      ← List.countP_eq_length_filter, ← List.countP_eq_length_filter,
      countP_status_split, List.countP_eq_length]
    refine forall₂_congr fun b hb => ?_
    simp only [Bool.or_eq_true, beq_iff_eq, List.mem_cons, List.mem_singleton,
      List.not_mem_nil, or_false]
    tauto

/-- Elements of `takeWhile` satisfy the predicate. -/
lemma mem_takeWhile_pred (p : Char → Bool) :
    ∀ (l : List Char) (x : Char), x ∈ l.takeWhile p → p x = true := by
  intro l
  induction l with
  | nil => intro x hx; cases hx
  | cons a t ih =>
    intro x hx
    rw [List.takeWhile_cons] at hx
    by_cases ha : p a = true
    · rw [if_pos ha] at hx
      rcases List.mem_cons.mp hx with hxa | hx'
      · exact hxa ▸ ha
      · exact ih x hx'
    · rw [if_neg ha] at hx
      cases hx

/-- Elements of `dropWhile` are elements of the list. -/
lemma mem_dropWhile_mem (p : Char → Bool) :
    ∀ (l : List Char) (x : Char), x ∈ l.dropWhile p → x ∈ l := by
  intro l
  induction l with
  | nil => intro x hx; exact hx
  | cons a t ih =>
    intro x hx
    rw [List.dropWhile_cons] at hx
    by_cases ha : p a = true
    · rw [if_pos ha] at hx
      exact List.mem_cons_of_mem a (ih x hx)
    · rw [if_neg ha] at hx
      exact hx

/-- Elements of `dropTrailingWs` are elements of the list. -/
lemma mem_dropTrailingWs_mem :
    ∀ (l : List Char) (x : Char), x ∈ dropTrailingWs l → x ∈ l := by
  intro l
  induction l with
  | nil => intro x hx; exact hx
  | cons a t ih =>
    intro x hx
    simp only [dropTrailingWs] at hx
    by_cases hc : ((dropTrailingWs t).isEmpty && isPySpace a) = true
    · rw [if_pos hc] at hx
      cases hx
    · rw [if_neg hc] at hx
      rcases List.mem_cons.mp hx with hxa | hx'
      · exact hxa ▸ List.mem_cons_self a t
      · exact List.mem_cons_of_mem a (ih x hx')

/-- The head surviving `dropWhile p` falsifies `p`. -/
lemma head?_dropWhile_false (p : Char → Bool) :
    ∀ (l : List Char) (x : Char), (l.dropWhile p).head? = some x → p x = false := by
  intro l
  induction l with
  | nil => intro x hx; cases hx
  | cons a t ih =>
    intro x hx
    rw [List.dropWhile_cons] at hx
    by_cases ha : p a = true
    · rw [if_pos ha] at hx
      exact ih x hx
    · rw [if_neg ha] at hx
      injection hx with hx
      subst hx
      exact Bool.of_not_eq_true ha

/-- `dropTrailingWs` keeps the head when it returns anything. -/
lemma head?_dropTrailingWs :
    ∀ (l : List Char) (x : Char), (dropTrailingWs l).head? = some x →
      l.head? = some x := by
  intro l
  cases l with
  | nil => intro x hx; cases hx
  | cons a t =>
    intro x hx
    simp only [dropTrailingWs] at hx
    by_cases hc : ((dropTrailingWs t).isEmpty && isPySpace a) = true
    · rw [if_pos hc] at hx
      cases hx
    · rw [if_neg hc] at hx
      injection hx with hx
      simp [hx]

/-- The last character surviving `dropTrailingWs` is not whitespace. -/
lemma getLast?_dropTrailingWs_not_ws :
    ∀ (l : List Char) (x : Char), (dropTrailingWs l).getLast? = some x →
      isPySpace x = false := by
  intro l
  induction l with
  | nil => intro x hx; cases hx
  | cons a t ih =>
    intro x hx
    simp only [dropTrailingWs] at hx
    by_cases hc : ((dropTrailingWs t).isEmpty && isPySpace a) = true
    · rw [if_pos hc] at hx
      cases hx
    · rw [if_neg hc] at hx
      cases hr : dropTrailingWs t with
      | nil =>
        rw [hr] at hx
        have ha : isPySpace a = false := by
          rw [hr] at hc
          simpa using hc
        simp only [List.getLast?_singleton] at hx
        injection hx with hx
        exact hx ▸ ha
      | cons y m =>
        rw [hr] at hx
        rw [List.getLast?_cons_cons] at hx
        exact ih x (hr ▸ hx)

/-- `noDoubleSpace` survives removing the head. -/
lemma noDoubleSpace_tail (a : Char) (l : List Char)
    (h : noDoubleSpace (a :: l) = true) : noDoubleSpace l = true := by
  cases l with
  | nil => rfl
  | cons b t =>
    have h2 := h
    simp only [noDoubleSpace, Bool.and_eq_true] at h2
    simpa [noDoubleSpace] using h2.2

/-- `noDoubleSpace` survives `dropWhile`. -/
lemma noDoubleSpace_dropWhile (p : Char → Bool) :
    ∀ l : List Char, noDoubleSpace l = true →
      noDoubleSpace (l.dropWhile p) = true := by
  intro l
  induction l with
  | nil => intro h; exact h
  | cons a t ih =>
    intro h
    rw [List.dropWhile_cons]
    by_cases ha : p a = true
    · rw [if_pos ha]
      exact ih (noDoubleSpace_tail a t h)
    · rw [if_neg ha]
      exact h

/-- Gluing a head back on: when the second list starts with the same
character as the first, the pairwise constraint transfers. -/
lemma noDoubleSpace_cons_glue (a : Char) (r t : List Char)
    (hhead : ∀ y, r.head? = some y → t.head? = some y)
    (h : noDoubleSpace (a :: t) = true) (hr : noDoubleSpace r = true) :
    noDoubleSpace (a :: r) = true := by
  cases r with
  | nil => rfl
  | cons y m =>
    have hy : t.head? = some y := hhead y rfl
    cases t with
    | nil => cases hy
    | cons b t2 =>
      have hby : b = y := by injection hy
      subst hby
      have h2 := h
      simp only [noDoubleSpace, Bool.and_eq_true] at h2
      simp only [noDoubleSpace, Bool.and_eq_true]
      exact ⟨h2.1, hr⟩

/-- `noDoubleSpace` survives `dropTrailingWs`. -/
lemma noDoubleSpace_dropTrailingWs :
    ∀ l : List Char, noDoubleSpace l = true →
      noDoubleSpace (dropTrailingWs l) = true := by
  intro l
  induction l with
  | nil => intro h; exact h
  | cons a t ih =>
    intro h
    simp only [dropTrailingWs]
    by_cases hc : ((dropTrailingWs t).isEmpty && isPySpace a) = true
    · rw [if_pos hc]; rfl
    · rw [if_neg hc]
      exact noDoubleSpace_cons_glue a (dropTrailingWs t) t (head?_dropTrailingWs t) h
        (ih (noDoubleSpace_tail a t h))

/-- The space character is Python whitespace. -/
lemma isPySpace_space : isPySpace ' ' = true := rfl

/-- A non-whitespace character is not the space character. -/
lemma beq_space_eq_false (c : Char) (h : isPySpace c = false) : (c == ' ') = false := by
  cases hc : c == ' ' with
  | false => rfl
  | true =>
    have : c = ' ' := beq_iff_eq.mp hc
    rw [this, isPySpace_space] at h
    cases h

/-- Every whitespace character in the collapse output is a space. -/
lemma mem_collapseWSGo_space :
    ∀ (l : List Char) (b : Bool) (c : Char), c ∈ collapseWSGo b l →
      isPySpace c = true → c = ' ' := by
  intro l
  induction l with
  | nil => intro b c hc; cases hc
  | cons a t ih =>
    intro b c hc hw
    simp only [collapseWSGo] at hc
    by_cases ha : isPySpace a = true
    · rw [if_pos ha] at hc
      cases b with
      | true => exact ih true c hc hw
      | false =>
        rw [if_neg Bool.false_ne_true] at hc
        rcases List.mem_cons.mp hc with hce | hc'
        · exact hce
        · exact ih true c hc' hw
    · rw [if_neg ha] at hc
      rcases List.mem_cons.mp hc with hce | hc'
      · exact absurd (hce ▸ hw) (by simp [Bool.of_not_eq_true ha])
      · exact ih false c hc' hw

/-- Inside a run, the collapse output starts with a non-whitespace
character (the run's single space was already emitted). -/
lemma head?_collapseWSGo_true :
    ∀ (l : List Char) (x : Char), (collapseWSGo true l).head? = some x →
      isPySpace x = false := by
  intro l
  induction l with
  | nil => intro x hx; cases hx
  | cons a t ih =>
    intro x hx
    simp only [collapseWSGo] at hx
    by_cases ha : isPySpace a = true
    · rw [if_pos ha] at hx
      exact ih x hx
    · rw [if_neg ha] at hx
      injection hx with hx
      exact hx ▸ Bool.of_not_eq_true ha

/-- The collapse output never contains two adjacent spaces. -/
lemma noDoubleSpace_collapseWSGo :
    ∀ (l : List Char) (b : Bool), noDoubleSpace (collapseWSGo b l) = true := by
  intro l
  induction l with
  | nil => intro b; rfl
  | cons a t ih =>
    intro b
    simp only [collapseWSGo]
    by_cases ha : isPySpace a = true
    · rw [if_pos ha]
      cases b with
      | true => exact ih true
      | false =>
        rw [if_neg Bool.false_ne_true]
        cases hm : collapseWSGo true t with
        | nil => rfl
        | cons y m =>
          have hy : isPySpace y = false := head?_collapseWSGo_true t y (by rw [hm]; rfl)
          simp only [noDoubleSpace, Bool.and_eq_true]
          refine ⟨by simp [beq_space_eq_false y hy], ?_⟩
          have := ih true
          rw [hm] at this
          exact this
    · rw [if_neg ha]
      cases hm : collapseWSGo false t with
      | nil => rfl
      | cons y m =>
        simp only [noDoubleSpace, Bool.and_eq_true]
        refine ⟨by simp [beq_space_eq_false a (Bool.of_not_eq_true ha)], ?_⟩
        have := ih false
        rw [hm] at this
        exact this

/-- `dropWhile` is the identity on a list without whitespace. -/
lemma dropWhile_ws_eq_self (l : List Char) (h : ∀ c ∈ l, isPySpace c = false) :
    l.dropWhile isPySpace = l := by
  cases l with
  | nil => rfl
  | cons a t =>
    rw [List.dropWhile_cons, if_neg]
    simp [h a (List.mem_cons_self a t)]

/-- `dropTrailingWs` is the identity on a list without whitespace. -/
lemma dropTrailingWs_eq_self :
    ∀ l : List Char, (∀ c ∈ l, isPySpace c = false) → dropTrailingWs l = l := by
  intro l
  induction l with
  | nil => intro h; rfl
  | cons a t ih =>
    intro h
    have ht := ih (fun c hc => h c (List.mem_cons_of_mem a hc))
    simp only [dropTrailingWs, ht]
    rw [if_neg]
    simp [h a (List.mem_cons_self a t)]

/-- `str.strip` is the identity on a string without whitespace. -/
lemma pyStripL_eq_self (l : List Char) (h : ∀ c ∈ l, isPySpace c = false) :
    pyStripL l = l := by
  rw [pyStripL, dropWhile_ws_eq_self l h, dropTrailingWs_eq_self l h]

/-- Digits are not whitespace. -/
lemma isDigit_not_ws (c : Char) (h : isDigit c = true) : isPySpace c = false := by
  simp only [isDigit, Bool.and_eq_true, decide_eq_true_eq] at h
  simp only [isPySpace, Bool.or_eq_false_iff, beq_eq_false_iff_ne, Ne]
  omega

/-- Shape of a successful odds extraction: a sign followed by a
nonempty run of digits. -/
lemma findOdds_shape :
    ∀ (l g : List Char), findOdds l = some g →
      ∃ c ds, g = c :: ds ∧ (c = '+' ∨ c = '-') ∧ ds ≠ [] ∧
        ∀ d ∈ ds, isDigit d = true := by
  intro l
  induction l with
  | nil => intro g h; cases h
  | cons c t ih =>
    intro g h
    simp only [findOdds] at h
    by_cases hc : ((c == '+' || c == '-') && headDigit t) = true
    · rw [if_pos hc] at h
      injection h with h
      subst h
      have hc2 := hc
      simp only [Bool.and_eq_true, Bool.or_eq_true] at hc2
      rcases hc2 with ⟨hsign, hdig⟩
      refine ⟨c, t.takeWhile isDigit, rfl, ?_, ?_, fun d hd => mem_takeWhile_pred _ t d hd⟩
      · rcases hsign with h1 | h1
        · exact Or.inl (beq_iff_eq.mp h1)
        · exact Or.inr (beq_iff_eq.mp h1)
      · cases t with
        | nil => cases hdig
        | cons d t2 =>
          have hd : isDigit d = true := hdig
          rw [List.takeWhile_cons, if_pos hd]
          simp
    · rw [if_neg hc] at h
      exact ih g h

/-- Characters of a cleaned monetary field are digits or the dot. -/
lemma cleanMoney_chars (s : String) (ch : Char) (h : ch ∈ (cleanMoney s).data) :
    isDigit ch = true ∨ ch = '.' := by
  by_cases he : s = ""
  · rw [he] at h
    cases h
  · rw [cleanMoney, if_neg he] at h
    have h2 := (List.mem_filter.mp h).2
    simp only [Bool.or_eq_true] at h2
    rcases h2 with h1 | h1
    · exact Or.inl h1
    · exact Or.inr (beq_iff_eq.mp h1)

/-- Collapse-then-strip yields a whitespace-normalized list: only plain
single spaces inside, none at either end. -/
lemma wsNormalized_strip_collapse (l : List Char) :
    wsNormalized (pyStripL (collapseWS l)) = true := by
  have hall : ∀ c ∈ pyStripL (collapseWS l), isPySpace c = true → c = ' ' := by
    intro c hc hw
    have hc2 := mem_dropTrailingWs_mem _ c hc
    have hc3 := mem_dropWhile_mem isPySpace _ c hc2
    exact mem_collapseWSGo_space l false c hc3 hw
  have hnd : noDoubleSpace (pyStripL (collapseWS l)) = true :=
    noDoubleSpace_dropTrailingWs _
      (noDoubleSpace_dropWhile isPySpace _ (noDoubleSpace_collapseWSGo l false))
  have hhead : ∀ x, (pyStripL (collapseWS l)).head? = some x → (x == ' ') = false := by
    intro x hx
    have hx2 := head?_dropTrailingWs _ x hx
    have hx3 := head?_dropWhile_false isPySpace _ x hx2
    exact beq_space_eq_false x hx3
  have hlast : ∀ x, (pyStripL (collapseWS l)).getLast? = some x → (x == ' ') = false :=
    fun x hx => beq_space_eq_false x (getLast?_dropTrailingWs_not_ws _ x hx)
  rw [wsNormalized]
  simp only [Bool.and_eq_true]
  refine ⟨⟨⟨?_, hnd⟩, ?_⟩, ?_⟩
  · rw [List.all_eq_true]
    intro c hc
    by_cases hw : isPySpace c = true
    · have := hall c hc hw
      simp [this]
    · simp [Bool.of_not_eq_true hw]
  · cases hh : (pyStripL (collapseWS l)).head? with
    | none => rfl
    | some x => simpa using hhead x hh
  · cases hh : (pyStripL (collapseWS l)).getLast? with
    | none => rfl
    | some x => simpa using hlast x hh

/-- The cleaned game description is whitespace-normalized. -/
lemma wsNormalized_cleanGame (s : String) : wsNormalized (cleanGame s).data = true := by
  by_cases he : s = ""
  · rw [he]
    decide
  · rw [cleanGame, if_neg he]
    exact wsNormalized_strip_collapse s.data

/-- C7.  In every record returned by `parse_email`, the cleaned odds
field is one leading sign followed by a nonempty run of digits, the
cleaned stake and potential payout contain only digits and dots, and
the game description's whitespace runs are collapsed to single interior
spaces. -/
theorem claim_C7_cleanup_shapes (content subject today : String) (r : BetEmailData)
    (h : parse_email content subject today = some r) :
    (∃ c ds, r.odds.data = c :: ds ∧ (c = '+' ∨ c = '-') ∧ ds ≠ [] ∧
      ∀ d ∈ ds, isDigit d = true) ∧
    (∀ ch ∈ r.stake.data, isDigit ch = true ∨ ch = '.') ∧
    (∀ ch ∈ r.potential_payout.data, isDigit ch = true ∨ ch = '.') ∧
    wsNormalized r.game_description.data = true := by
  rcases parse_email_eq_some content subject today r h with ⟨sb, _, hr, hv⟩
  have hodds : r.odds = cleanOdds (extract_odds content) := by rw [hr]; rfl
  have hstake : r.stake = cleanMoney (extract_stake content) := by rw [hr]; rfl
  have hpay : r.potential_payout = cleanMoney (extract_payout content) := by rw [hr]; rfl
  have hgame : r.game_description = cleanGame (extract_game content) := by rw [hr]; rfl
  refine ⟨?_, ?_, ?_, ?_⟩
  · have hne : r.odds ≠ "" := (validate_true_fields r hv).2
    rw [hodds] at hne ⊢
    cases hf : findOdds content.data with
    | none =>
      exfalso
      apply hne
      rw [extract_odds, hf]
      rfl
    | some g =>
      rcases findOdds_shape content.data g hf with ⟨c, ds, hg, hc, hds, hdig⟩
      have hgws : ∀ x ∈ g, isPySpace x = false := by
        intro x hx
        rw [hg] at hx
        rcases List.mem_cons.mp hx with hxc | hxd
        · subst hxc
          rcases hc with h1 | h1 <;> rw [h1] <;> decide
        · exact isDigit_not_ws x (hdig x hxd)
      have hext : extract_odds content = String.mk g := by
        rw [extract_odds, hf]
        show String.mk (pyStripL g) = String.mk g
        rw [pyStripL_eq_self g hgws]
      rw [hext]
      have hmkne : String.mk g ≠ "" := by
        rw [hg]
        intro hcon
        have := congrArg String.data hcon
        simp at this
      refine ⟨c, ds, ?_, hc, hds, hdig⟩
      rw [cleanOdds, if_neg hmkne]
      show g.filter (fun ch => isDigit ch || ch == '+' || ch == '-') = c :: ds
      have hfil : g.filter (fun ch => isDigit ch || ch == '+' || ch == '-') = g := by
        rw [List.filter_eq_self]
        intro x hx
        rw [hg] at hx
        rcases List.mem_cons.mp hx with hxc | hxd
        · subst hxc
          rcases hc with h1 | h1 <;> rw [h1] <;> decide
        · simp [hdig x hxd]
      rw [hfil, hg]
  · intro ch hch
    rw [hstake] at hch
    exact cleanMoney_chars _ ch hch
  · intro ch hch
    rw [hpay] at hch
    exact cleanMoney_chars _ ch hch
  · rw [hgame]
    exact wsNormalized_cleanGame _

/-- Witness for C7 at a concrete parsed email. -/
theorem claim_C7_cleanup_shapes_witness :
    (∃ c ds, ("-110" : String).data = c :: ds ∧ (c = '+' ∨ c = '-') ∧ ds ≠ [] ∧
      ∀ d ∈ ds, isDigit d = true) ∧
    (∀ ch ∈ ("25.00" : String).data, isDigit ch = true ∨ ch = '.') ∧
    (∀ ch ∈ ("" : String).data, isDigit ch = true ∨ ch = '.') ∧
    wsNormalized ("" : String).data = true :=
  claim_C7_cleanup_shapes "FanDuel $25.00 -110" "" "2026-02-03"
    ⟨"fanduel", "2026-02-03", "Other", "", "", "-110", "25.00", ""⟩ (by decide)
